import Mathlib

/-!
Verification of `fiasco/element.py` (class `Element`).

The file shallowly embeds the rate-matrix builder `Element._rate_matrix`,
the equilibrium solver `Element.equilibrium_ionization`, the indexed access
`Element.__getitem__`, and the constructor `Element.__init__`.

Numeric values are embedded as rationals; numpy arrays of fixed shape are
embedded as total functions together with their dimensions; fallible Python
operations (out-of-range indexing, tuple unpacking, `int()` parsing,
species resolution) return `Except`.
-/

namespace Fiasco

/-- Python exception kinds raised by the embedded code: `ValueError`
(malformed strings, failed unpacking), `IndexError` (sequence/array index
out of range) and `plasmapy`'s `InvalidElementError`. -/
inductive PyErr where
  | valueError : String → PyErr
  | indexError : String → PyErr
  | invalidElement : String → PyErr
deriving DecidableEq

/-- A `T × n × n` numpy array, embedded as a total function
`temperature-sample ↦ row ↦ column ↦ value`; dimensions are carried
separately where they matter. -/
abbrev Mat3 := ℕ → ℕ → ℕ → ℚ

/-- The all-zero array produced by `np.zeros(...)`. -/
def zeroMat : Mat3 := fun _ _ _ => 0

/-- Python / numpy indexing on an axis of length `n`: a nonnegative index
must be `< n`; a negative index counts from the end (`-1` is the last
entry); anything else raises `IndexError`. -/
def pyIndex (n : ℕ) (i : ℤ) : Except PyErr ℕ :=
  if 0 ≤ i then
    if i < (n : ℤ) then Except.ok i.toNat
    else Except.error (PyErr.indexError "index out of range")
  else
    if -(n : ℤ) ≤ i then Except.ok (i + (n : ℤ)).toNat
    else Except.error (PyErr.indexError "index out of range")

/-- Point update of an embedded array: the state after the numpy assignment
`A[:, a, b] = v` (the whole temperature axis at once) with already resolved
nonnegative indices `a`, `b`. -/
def updSlot (M : Mat3) (a b : ℕ) (v : ℕ → ℚ) : Mat3 :=
  fun t x y => if x = a ∧ y = b then v t else M t x y

/-- Bounds-checked numpy assignment `A[:, i, j] = v` on a `T × n × n`
array: both indices are resolved (negative indices from the end) and
checked before the update. -/
def setSlot (n : ℕ) (M : Mat3) (i j : ℤ) (v : ℕ → ℚ) : Except PyErr Mat3 := do
  let a ← pyIndex n i
  let b ← pyIndex n j
  return updSlot M a b v

/-- Embedded `fiasco.Element`: atomic number `Z`, length `T` of the shared
temperature grid, the element's display symbol, and the per-stage rate
providers.  The ion at sequence position `i` (ionization stage `i + 1`)
exposes `ionization_rate()` as `ionRate i` and `recombination_rate()` as
`recRate i`, each a function of the temperature-sample index. -/
structure Element where
  Z : ℕ
  T : ℕ
  symbol : String
  ionRate : ℕ → ℕ → ℚ
  recRate : ℕ → ℕ → ℚ

/-- Modelled from the spec: `fiasco.IonCollection.__getitem__`, the
base-class lookup reached through `super().__getitem__`, is not among the
shown sources.  Per the spec it is lookup by integer position (0-based)
into the ordered ion sequence of length `Z + 1`; Python sequence semantics
let negative positions count from the end, as the source itself relies on
with `self[-1]` and `self[-2]` in `_rate_matrix`.  The looked-up ion is
identified by its sequence position. -/
def Element.ionIdx (e : Element) (i : ℤ) : Except PyErr ℕ :=
  pyIndex (e.Z + 1) i

/-- One iteration of the interior loop of `Element._rate_matrix`:

`rate_matrix[:, i, i] = -(self[i].ionization_rate() + self[i].recombination_rate())`
`rate_matrix[:, i, i-1] = self[i-1].ionization_rate()`
`rate_matrix[:, i, i+1] = self[i+1].recombination_rate()`

Each statement first evaluates its right-hand side (the `self[...]`
lookups) and then performs the bounds-checked array assignment. -/
def loopBody (e : Element) (M : Mat3) (i : ℕ) : Except PyErr Mat3 := do
  let ki ← e.ionIdx (i : ℤ)
  let M1 ← setSlot (e.Z + 1) M (i : ℤ) (i : ℤ)
    (fun t => -(e.ionRate ki t + e.recRate ki t))
  let km ← e.ionIdx ((i : ℤ) - 1)
  let M2 ← setSlot (e.Z + 1) M1 (i : ℤ) ((i : ℤ) - 1) (fun t => e.ionRate km t)
  let kp ← e.ionIdx ((i : ℤ) + 1)
  setSlot (e.Z + 1) M2 (i : ℤ) ((i : ℤ) + 1) (fun t => e.recRate kp t)

/-- The loop `for i in range(1, self.atomic_number):` of
`Element._rate_matrix`, which executes `loopBody` for `i = 1, ..., k` in
order (`k = Z - 1`), short-circuiting on an exception. -/
def rateLoop (e : Element) (M : Mat3) : ℕ → Except PyErr Mat3
  | 0 => Except.ok M
  | k + 1 => (rateLoop e M k).bind (fun M' => loopBody e M' (k + 1))

/-- The value returned by `Element._rate_matrix`: the dimensions
`T × n × n` of the allocated array (`n = Z + 1`) together with its
entries. -/
structure RateMatrix where
  T : ℕ
  n : ℕ
  entry : Mat3

/-- Embedding of `Element._rate_matrix`: allocate a
`T × (Z+1) × (Z+1)` zero array, run the interior loop over
`range(1, Z)`, then perform the four boundary-row assignments

`rate_matrix[:, 0, 0] = -(self[0].ionization_rate() + self[0].recombination_rate())`
`rate_matrix[:, 0, 1] = self[1].recombination_rate()`
`rate_matrix[:, -1, -1] = -(self[-1].ionization_rate() + self[-1].recombination_rate())`
`rate_matrix[:, -1, -2] = self[-2].ionization_rate()`

(the unit bookkeeping of the source carries no numeric content and is not
modelled).  Every `self[...]` lookup and every array write is
bounds-checked exactly as in Python, in evaluation order. -/
def Element.rateMatrix (e : Element) : Except PyErr RateMatrix := do
  let M ← rateLoop e zeroMat (e.Z - 1)
  let k0 ← e.ionIdx 0
  let M ← setSlot (e.Z + 1) M 0 0 (fun t => -(e.ionRate k0 t + e.recRate k0 t))
  let k1 ← e.ionIdx 1
  let M ← setSlot (e.Z + 1) M 0 1 (fun t => e.recRate k1 t)
  let kz ← e.ionIdx (-1)
  let M ← setSlot (e.Z + 1) M (-1) (-1) (fun t => -(e.ionRate kz t + e.recRate kz t))
  let kz2 ← e.ionIdx (-2)
  let M ← setSlot (e.Z + 1) M (-1) (-2) (fun t => e.ionRate kz2 t)
  return ⟨e.T, e.Z + 1, M⟩

/-- Closed form for the array state after the interior loop has processed
rows `1, ..., k`: row `a` holds its three tridiagonal entries when
`1 ≤ a ≤ k`, and every other entry still holds the initial zero.  This is a
proof-side description; `rateLoop_char` below proves it equal to the
builder's loop state. -/
def loopMat (e : Element) (k : ℕ) : Mat3 := fun t a b =>
  if 1 ≤ a ∧ a ≤ k then
    (if b = a then -(e.ionRate a t + e.recRate a t)
     else if b + 1 = a then e.ionRate (a - 1) t
     else if b = a + 1 then e.recRate (a + 1) t
     else 0)
  else 0

/-- Closed form for the full builder output (loop state plus the four
boundary-row assignments, innermost applied first); `rateMatrix_eq` below
proves it equal to the builder's result. -/
def finalMat (e : Element) : Mat3 :=
  updSlot (updSlot (updSlot (updSlot (loopMat e (e.Z - 1)) 0 0
    (fun t => -(e.ionRate 0 t + e.recRate 0 t))) 0 1
    (fun t => e.recRate 1 t)) e.Z e.Z
    (fun t => -(e.ionRate e.Z t + e.recRate e.Z t))) e.Z (e.Z - 1)
    (fun t => e.ionRate (e.Z - 1) t)

/-- A two-stage test element (`Z = 1`, hydrogen-like) with unit ionization
and recombination rates for every stage, over a one-sample temperature
grid. -/
def elemA : Element := ⟨1, 1, "H", fun _ _ => 1, fun _ _ => 1⟩

/-- A two-stage test element with physically consistent boundary rates:
the neutral stage does not recombine and the fully stripped stage does not
ionize. -/
def elemB : Element :=
  ⟨1, 1, "H", fun i _ => if i = 0 then 1 else 0, fun i _ => if i = 0 then 0 else 1⟩

/-- A three-stage test element (`Z = 2`) whose rate matrix exercises the
interior loop. -/
def elemC : Element := ⟨2, 1, "He", fun _ _ => 1, fun _ _ => 1⟩

/-- A degenerate element with `Z = 0`, outside the range of real atomic
numbers, exercising the builder's behaviour on a `1 × 1` matrix. -/
def elemZ0 : Element := ⟨0, 1, "H", fun _ _ => 1, fun _ _ => 1⟩

/-- The value returned by `equilibrium_ionization`: a `T × (Z+1)` array of
ionization fractions. -/
structure IonFracArr where
  T : ℕ
  n : ℕ
  entry : ℕ → ℕ → ℚ

/-- Embedding of `Element.equilibrium_ionization`.  The singular value
decomposition performed by `np.linalg.svd` is an external numerical
routine; it enters the embedding as an explicit argument `svd` mapping the
rate array to the returned factor `V` (numpy's `Vh`: one `n × n` matrix per
temperature slice; `np.linalg.svd` is a deterministic function of its
input).  Following the source: take the rate matrix from the caller when
one is supplied (`kwargs.get('rate_matrix', None)`), otherwise build it;
decompose; select the last row of each slice of `V` (`V[:, -1, :]`, the
right singular vector of the smallest singular value, numpy returning
singular values in descending order); take absolute values (`np.fabs`);
divide each row by its sum. -/
def Element.equilibriumIonization (e : Element) (svd : Mat3 → Mat3)
    (rateMatrixArg : Option RateMatrix) : Except PyErr IonFracArr := do
  let rm ← match rateMatrixArg with
    | some m => Except.ok m
    | none => e.rateMatrix
  let V := svd rm.entry
  let kv ← pyIndex rm.n (-1)
  let raw : ℕ → ℕ → ℚ := fun t j => |V t kv j|
  let total : ℕ → ℚ := fun t => ∑ j in Finset.range rm.n, raw t j
  return ⟨rm.T, rm.n, fun t j => raw t j / total t⟩

/-- A stand-in decomposition used for concrete witnesses: every entry of
the returned factor is `1`. -/
def constSvd : Mat3 → Mat3 := fun _ => fun _ _ _ => 1

/-- The rate matrix the builder produces for `elemA`. -/
def elemAMat : RateMatrix := (elemA.rateMatrix).toOption.getD ⟨0, 0, zeroMat⟩

/-- A single call of `equilibrium_ionization()` with no arguments, paired
with the state of the element after the call.  The source method only
reads `self` (the per-stage rates over the stored temperature grid) and
binds local variables; it assigns to no attribute, so the post-state is
the pre-state. -/
def Element.equilibriumCall (e : Element) (svd : Mat3 → Mat3) :
    Except PyErr IonFracArr × Element :=
  (e.equilibriumIonization svd none, e)

/-- Python `str.split()` whitespace classification. -/
def pyIsSpace (c : Char) : Bool :=
  c == ' ' || c == '\t' || c == '\n' || c == '\r'

/-- Worker for Python `str.split()` with no argument: split on runs of
whitespace, discarding empty tokens; `cur` accumulates the current token
in reverse. -/
def splitWsAux : List Char → List Char → List (List Char)
  | [], cur => if cur = [] then [] else [cur.reverse]
  | c :: rest, cur =>
    if pyIsSpace c then
      (if cur = [] then splitWsAux rest [] else cur.reverse :: splitWsAux rest [])
    else splitWsAux rest (c :: cur)

/-- Python `value.split()`. -/
def pySplit (s : String) : List (List Char) := splitWsAux s.data []

/-- Python `str.strip(chars)` with a single strip character: remove every
leading and trailing occurrence. -/
def stripChar (c : Char) (l : List Char) : List Char :=
  ((l.dropWhile (· == c)).reverse.dropWhile (· == c)).reverse

/-- Numeric value of a decimal digit string, most significant digit
first. -/
def digitsVal (l : List Char) : ℕ :=
  l.foldl (fun a c => 10 * a + (c.toNat - 48)) 0

/-- Python `int(token)`: an optional minus sign followed by one or more
decimal digits; anything else raises `ValueError`. -/
def pyInt (l : List Char) : Except PyErr ℤ :=
  if l.head? = some '-' then
    (if l.tail ≠ [] ∧ ∀ c ∈ l.tail, 48 ≤ c.toNat ∧ c.toNat ≤ 57
     then Except.ok (-(digitsVal l.tail : ℤ))
     else Except.error (PyErr.valueError "invalid literal for int() with base 10"))
  else
    (if l ≠ [] ∧ ∀ c ∈ l, 48 ≤ c.toNat ∧ c.toNat ≤ 57
     then Except.ok ((digitsVal l : ℤ))
     else Except.error (PyErr.valueError "invalid literal for int() with base 10"))

/-- A lookup key for `Element.__getitem__`: Python dispatches on the
dynamic type of the subscript, an `int` or a `str`. -/
inductive Key where
  | int : ℤ → Key
  | str : String → Key

/-- Embedding of `Element.__getitem__`: a string key is split into an
element token and an ion token (`el, ion = value.split()`, which raises
`ValueError` unless the split yields exactly two tokens); an ion token
containing a plus sign is stripped of plus signs and parsed as the 0-based
charge, otherwise it is parsed as the 1-based stage and decremented; the
resulting integer — or an integer key, unchanged — selects the sequence
position through the base-class lookup.  The element token is bound but
never inspected. -/
def Element.getitem (e : Element) : Key → Except PyErr ℕ
  | Key.int i => e.ionIdx i
  | Key.str s =>
    match pySplit s with
    | [_el, ion] =>
      if '+' ∈ ion then
        match pyInt (stripChar '+' ion) with
        | Except.ok v => e.ionIdx v
        | Except.error er => Except.error er
      else
        match pyInt ion with
        | Except.ok v => e.ionIdx (v - 1)
        | Except.error er => Except.error er
    | _ => Except.error (PyErr.valueError "not enough values to unpack (expected 2)")

/-- The decimal digit characters of `n`, most significant first. -/
def natDigits (n : ℕ) : List Char :=
  if _h : n < 10 then [Char.ofNat (48 + n)]
  else natDigits (n / 10) ++ [Char.ofNat (48 + n % 10)]
decreasing_by exact Nat.div_lt_self (by omega) (by omega)

/-- The decimal string of `n`. -/
def natToStr (n : ℕ) : String := ⟨natDigits n⟩

/-- An iron-like element: `Z = 26`, symbol `"Fe"`, unit rates. -/
def elemFe : Element := ⟨26, 1, "Fe", fun _ _ => 1, fun _ _ => 1⟩

/-- An element identifier as accepted by the constructor: a name or symbol
string, or an atomic number. -/
inductive ElementId where
  | name : String → ElementId
  | num : ℕ → ElementId

/-- ASCII uppercase conversion of one character (the case mapping Python
applies on the element identifiers of interest). -/
def asciiUpper (c : Char) : Char :=
  if 97 ≤ c.toNat ∧ c.toNat ≤ 122 then Char.ofNat (c.toNat - 32) else c

/-- ASCII lowercase conversion of one character. -/
def asciiLower (c : Char) : Char :=
  if 65 ≤ c.toNat ∧ c.toNat ≤ 90 then Char.ofNat (c.toNat + 32) else c

/-- Python `str.capitalize()`: first character uppercased, the remainder
lowercased. -/
def pyCapitalize (s : String) : String :=
  match s.data with
  | [] => ⟨[]⟩
  | c :: rest => ⟨asciiUpper c :: rest.map asciiLower⟩

/-- The identifier actually given to the resolver: string identifiers are
capitalized first (`element_name.capitalize()` when
`type(element_name) is str`); atomic numbers pass through unchanged. -/
def normalizeId : ElementId → ElementId
  | ElementId.name s => ElementId.name (pyCapitalize s)
  | ElementId.num z => ElementId.num z

/-- The ordered list of per-stage providers the constructor builds:
`fiasco.Ion(f'{Z} {i+1}', temperature, **kwargs)` for `i = 0, ..., Z`,
each provider identified by its `(Z, stage)` label. -/
def mkIonList (Z : ℕ) : List (ℕ × ℕ) :=
  (List.range (Z + 1)).map (fun i => (Z, i + 1))

/-- Embedding of `Element.__init__`.  Modelled from the spec where the
code leaves this repository: `plasmapy.particles.atomic_number` (the
species resolver) is an external collaborator, and the per-stage provider
class `fiasco.Ion` is not among the shown sources; per the spec the
resolver maps an element identifier to an atomic number and fails when it
is unresolvable, and each provider is labeled by its `(Z, stage)` pair.
The resolver enters as an explicit function returning `none` exactly on
unresolvable identifiers; its failure aborts construction before any
provider list is produced. -/
def elementInit (resolve : ElementId → Option ℕ) (eid : ElementId) :
    Except PyErr (List (ℕ × ℕ)) :=
  match resolve (normalizeId eid) with
  | none => Except.error (PyErr.invalidElement "could not resolve element identifier")
  | some Z => Except.ok (mkIonList Z)

/-- A concrete resolver for witnesses: it resolves iron (symbol or atomic
number) and nothing else. -/
def resolveFe : ElementId → Option ℕ
  | ElementId.name s => if s = "Fe" then some 26 else none
  | ElementId.num z => if z = 26 then some 26 else none

lemma ok_bind {α β : Type} (a : α) (f : α → Except PyErr β) :
    (Except.ok a : Except PyErr α) >>= f = f a := rfl

lemma pure_ok {α : Type} (a : α) : (pure a : Except PyErr α) = Except.ok a := rfl

lemma pyIndex_nonneg (n : ℕ) (i : ℤ) (h0 : 0 ≤ i) (h1 : i < (n : ℤ)) :
    pyIndex n i = Except.ok i.toNat := by
  unfold pyIndex; rw [if_pos h0, if_pos h1]

lemma pyIndex_neg (n : ℕ) (i : ℤ) (h0 : ¬ 0 ≤ i) (h1 : -(n : ℤ) ≤ i) :
    pyIndex n i = Except.ok (i + (n : ℤ)).toNat := by
  unfold pyIndex; rw [if_neg h0, if_pos h1]

lemma pyIndex_nat (n k : ℕ) (h : k < n) : pyIndex n (k : ℤ) = Except.ok k := by
  rw [pyIndex_nonneg n k (by omega) (by omega)]
  congr 1

lemma ionIdx_nat (e : Element) (k : ℕ) (h : k < e.Z + 1) :
    e.ionIdx (k : ℤ) = Except.ok k :=
  pyIndex_nat _ _ h

lemma ionIdx_zero (e : Element) : e.ionIdx 0 = Except.ok 0 := by
  have := ionIdx_nat e 0 (by omega)
  simpa using this

lemma ionIdx_one (e : Element) (h : 1 ≤ e.Z) : e.ionIdx 1 = Except.ok 1 := by
  have := ionIdx_nat e 1 (by omega)
  simpa using this

lemma ionIdx_neg_one (e : Element) : e.ionIdx (-1) = Except.ok e.Z := by
  unfold Element.ionIdx
  rw [pyIndex_neg _ _ (by omega) (by omega)]
  congr 1
  omega

lemma ionIdx_neg_two (e : Element) (h : 1 ≤ e.Z) :
    e.ionIdx (-2) = Except.ok (e.Z - 1) := by
  unfold Element.ionIdx
  rw [pyIndex_neg _ _ (by omega) (by omega)]
  congr 1
  omega

lemma ionIdx_nat_sub_one (e : Element) (i : ℕ) (h1 : 1 ≤ i) (h2 : i < e.Z + 1) :
    e.ionIdx ((i : ℤ) - 1) = Except.ok (i - 1) := by
  have hc : (i : ℤ) - 1 = ((i - 1 : ℕ) : ℤ) := by omega
  rw [hc]
  exact ionIdx_nat e (i - 1) (by omega)

lemma ionIdx_nat_add_one (e : Element) (i : ℕ) (h : i + 1 < e.Z + 1) :
    e.ionIdx ((i : ℤ) + 1) = Except.ok (i + 1) := by
  have hc : (i : ℤ) + 1 = ((i + 1 : ℕ) : ℤ) := by omega
  rw [hc]
  exact ionIdx_nat e (i + 1) h

lemma setSlot_nat (n i j : ℕ) (hi : i < n) (hj : j < n) (M : Mat3) (v : ℕ → ℚ) :
    setSlot n M (i : ℤ) (j : ℤ) v = Except.ok (updSlot M i j v) := by
  unfold setSlot
  rw [pyIndex_nat n i hi, pyIndex_nat n j hj]
  rfl

lemma setSlot_nat_sub_one (n i : ℕ) (h1 : 1 ≤ i) (hi : i < n) (M : Mat3) (v : ℕ → ℚ) :
    setSlot n M (i : ℤ) ((i : ℤ) - 1) v = Except.ok (updSlot M i (i - 1) v) := by
  have hc : (i : ℤ) - 1 = ((i - 1 : ℕ) : ℤ) := by omega
  rw [hc]
  exact setSlot_nat n i (i - 1) hi (by omega) M v

lemma setSlot_nat_add_one (n i : ℕ) (hi : i + 1 < n) (M : Mat3) (v : ℕ → ℚ) :
    setSlot n M (i : ℤ) ((i : ℤ) + 1) v = Except.ok (updSlot M i (i + 1) v) := by
  have hc : (i : ℤ) + 1 = ((i + 1 : ℕ) : ℤ) := by omega
  rw [hc]
  exact setSlot_nat n i (i + 1) (by omega) hi M v

lemma setSlot_zero_zero (n : ℕ) (h : 0 < n) (M : Mat3) (v : ℕ → ℚ) :
    setSlot n M 0 0 v = Except.ok (updSlot M 0 0 v) := by
  have := setSlot_nat n 0 0 h h M v
  simpa using this

lemma setSlot_zero_one (n : ℕ) (h : 1 < n) (M : Mat3) (v : ℕ → ℚ) :
    setSlot n M 0 1 v = Except.ok (updSlot M 0 1 v) := by
  have := setSlot_nat n 0 1 (by omega) h M v
  simpa using this

lemma setSlot_neg_one_neg_one (n : ℕ) (h : 1 ≤ n) (M : Mat3) (v : ℕ → ℚ) :
    setSlot n M (-1) (-1) v = Except.ok (updSlot M (n - 1) (n - 1) v) := by
  unfold setSlot
  rw [pyIndex_neg n (-1) (by omega) (by omega)]
  have hc : ((-1 : ℤ) + (n : ℤ)).toNat = n - 1 := by omega
  rw [hc]
  rfl

lemma setSlot_neg_one_neg_two (n : ℕ) (h : 2 ≤ n) (M : Mat3) (v : ℕ → ℚ) :
    setSlot n M (-1) (-2) v = Except.ok (updSlot M (n - 1) (n - 2) v) := by
  unfold setSlot
  rw [pyIndex_neg n (-1) (by omega) (by omega), pyIndex_neg n (-2) (by omega) (by omega)]
  have hc : ((-1 : ℤ) + (n : ℤ)).toNat = n - 1 := by omega
  have hc2 : ((-2 : ℤ) + (n : ℤ)).toNat = n - 2 := by omega
  rw [hc, hc2]
  rfl

lemma loopBody_ok (e : Element) (i : ℕ) (h1 : 1 ≤ i) (h2 : i ≤ e.Z - 1) (M : Mat3) :
    loopBody e M i = Except.ok
      (updSlot (updSlot (updSlot M i i
        (fun t => -(e.ionRate i t + e.recRate i t))) i (i - 1)
        (fun t => e.ionRate (i - 1) t)) i (i + 1)
        (fun t => e.recRate (i + 1) t)) := by
  unfold loopBody
  rw [ionIdx_nat e i (by omega), ok_bind,
    setSlot_nat (e.Z + 1) i i (by omega) (by omega), ok_bind,
    ionIdx_nat_sub_one e i h1 (by omega), ok_bind,
    setSlot_nat_sub_one (e.Z + 1) i h1 (by omega), ok_bind,
    ionIdx_nat_add_one e i (by omega), ok_bind,
    setSlot_nat_add_one (e.Z + 1) i (by omega)]

lemma loopMat_succ (e : Element) (k : ℕ) :
    updSlot (updSlot (updSlot (loopMat e k) (k + 1) (k + 1)
      (fun t => -(e.ionRate (k + 1) t + e.recRate (k + 1) t))) (k + 1) (k + 1 - 1)
      (fun t => e.ionRate (k + 1 - 1) t)) (k + 1) (k + 1 + 1)
      (fun t => e.recRate (k + 1 + 1) t) = loopMat e (k + 1) := by
  funext t a b
  by_cases ha : a = k + 1
  · subst ha
    simp only [updSlot, loopMat, Nat.add_sub_cancel, true_and]
    split_ifs <;> first | rfl | omega | (exfalso; assumption)
  · simp only [updSlot, loopMat, Nat.add_sub_cancel, true_and]
    split_ifs <;> first | rfl | omega | (exfalso; assumption)

lemma rateLoop_char (e : Element) :
    ∀ k, k ≤ e.Z - 1 → rateLoop e zeroMat k = Except.ok (loopMat e k) := by
  intro k
  induction k with
  | zero =>
    intro _
    unfold rateLoop
    congr 1
    funext t a b
    show (0 : ℚ) = loopMat e 0 t a b
    simp only [loopMat]
    rw [if_neg (by omega)]
  | succ k ih =>
    intro hk1
    unfold rateLoop
    rw [ih (by omega)]
    show loopBody e (loopMat e k) (k + 1) = Except.ok (loopMat e (k + 1))
    rw [loopBody_ok e (k + 1) (by omega) hk1]
    congr 1
    exact loopMat_succ e k

/-- For `Z ≥ 1` the builder raises nothing and its result has the closed
form `finalMat`. -/
lemma rateMatrix_eq (e : Element) (hZ : 1 ≤ e.Z) :
    e.rateMatrix = Except.ok ⟨e.T, e.Z + 1, finalMat e⟩ := by
  have hsub1 : e.Z + 1 - 1 = e.Z := by omega
  have hsub2 : e.Z + 1 - 2 = e.Z - 1 := by omega
  simp only [Element.rateMatrix]
  rw [rateLoop_char e (e.Z - 1) le_rfl, ok_bind, ionIdx_zero e, ok_bind,
    setSlot_zero_zero (e.Z + 1) (by omega), ok_bind, ionIdx_one e hZ, ok_bind,
    setSlot_zero_one (e.Z + 1) (by omega), ok_bind, ionIdx_neg_one e, ok_bind,
    setSlot_neg_one_neg_one (e.Z + 1) (by omega), ok_bind, ionIdx_neg_two e hZ, ok_bind,
    setSlot_neg_one_neg_two (e.Z + 1) (by omega), ok_bind, hsub1, hsub2, pure_ok]
  rfl

lemma finalMat_00 (e : Element) (hZ : 1 ≤ e.Z) (t : ℕ) :
    finalMat e t 0 0 = -(e.ionRate 0 t + e.recRate 0 t) := by
  simp only [finalMat, updSlot, loopMat, true_and]
  split_ifs <;> first | rfl | omega | (exfalso; assumption)

lemma finalMat_01 (e : Element) (hZ : 1 ≤ e.Z) (t : ℕ) :
    finalMat e t 0 1 = e.recRate 1 t := by
  simp only [finalMat, updSlot, loopMat, true_and]
  split_ifs <;> first | rfl | omega | (exfalso; assumption)

lemma finalMat_row0 (e : Element) (hZ : 1 ≤ e.Z) (t b : ℕ) (hb : 2 ≤ b) :
    finalMat e t 0 b = 0 := by
  simp only [finalMat, updSlot, loopMat, true_and]
  split_ifs <;> first | rfl | omega | (exfalso; assumption)

lemma finalMat_ZZ (e : Element) (hZ : 1 ≤ e.Z) (t : ℕ) :
    finalMat e t e.Z e.Z = -(e.ionRate e.Z t + e.recRate e.Z t) := by
  simp only [finalMat, updSlot, loopMat, true_and]
  split_ifs <;> first | rfl | omega | (exfalso; assumption)

lemma finalMat_ZZsub (e : Element) (hZ : 1 ≤ e.Z) (t : ℕ) :
    finalMat e t e.Z (e.Z - 1) = e.ionRate (e.Z - 1) t := by
  simp only [finalMat, updSlot, loopMat, true_and]
  split_ifs <;> first | rfl | omega | (exfalso; assumption)

lemma finalMat_rowZ (e : Element) (hZ : 1 ≤ e.Z) (t b : ℕ)
    (hb1 : b ≠ e.Z) (hb2 : b + 1 ≠ e.Z) :
    finalMat e t e.Z b = 0 := by
  simp only [finalMat, updSlot, loopMat, true_and]
  split_ifs <;> first | rfl | omega | (exfalso; assumption)

lemma finalMat_int_diag (e : Element) (t i : ℕ) (h1 : 0 < i) (h2 : i < e.Z) :
    finalMat e t i i = -(e.ionRate i t + e.recRate i t) := by
  simp only [finalMat, updSlot, loopMat, true_and]
  split_ifs <;> first | rfl | omega | (exfalso; assumption)

lemma finalMat_int_sub (e : Element) (t i : ℕ) (h1 : 0 < i) (h2 : i < e.Z) :
    finalMat e t i (i - 1) = e.ionRate (i - 1) t := by
  simp only [finalMat, updSlot, loopMat, true_and]
  split_ifs <;> first | rfl | omega | (exfalso; assumption)

lemma finalMat_int_super (e : Element) (t i : ℕ) (h1 : 0 < i) (h2 : i < e.Z) :
    finalMat e t i (i + 1) = e.recRate (i + 1) t := by
  simp only [finalMat, updSlot, loopMat, true_and]
  split_ifs <;> first | rfl | omega | (exfalso; assumption)

lemma finalMat_int_other (e : Element) (t i b : ℕ) (h1 : 0 < i) (h2 : i < e.Z)
    (hb1 : b ≠ i) (hb2 : b + 1 ≠ i) (hb3 : b ≠ i + 1) :
    finalMat e t i b = 0 := by
  simp only [finalMat, updSlot, loopMat, true_and]
  split_ifs <;> first | rfl | omega | (exfalso; assumption)

/-- Entry of column `j` one row above the diagonal (row `j - 1`): the
recombination rate into the stage below. -/
lemma finalMat_sub_diag (e : Element) (hZ : 1 ≤ e.Z) (t j : ℕ)
    (hj : 1 ≤ j) (hjZ : j ≤ e.Z) :
    finalMat e t (j - 1) j = e.recRate j t := by
  by_cases hj1 : j = 1
  · subst hj1
    simpa using finalMat_01 e hZ t
  · have h := finalMat_int_super e t (j - 1) (by omega) (by omega)
    have hh : j - 1 + 1 = j := by omega
    rw [hh] at h
    exact h

/-- Entry of column `j` one row below the diagonal (row `j + 1`): the
ionization rate out of the stage below. -/
lemma finalMat_super_diag (e : Element) (hZ : 1 ≤ e.Z) (t j : ℕ) (hjZ : j < e.Z) :
    finalMat e t (j + 1) j = e.ionRate j t := by
  by_cases hje : j + 1 = e.Z
  · have h := finalMat_ZZsub e hZ t
    rw [← hje] at h
    simpa using h
  · have h := finalMat_int_sub e t (j + 1) (by omega) (by omega)
    simpa using h

/-- Every entry of column `j` outside rows `j - 1`, `j`, `j + 1` is zero. -/
lemma finalMat_col_other (e : Element) (hZ : 1 ≤ e.Z) (t a j : ℕ)
    (haZ : a ≤ e.Z) (hjZ : j ≤ e.Z)
    (h1 : a ≠ j) (h2 : a ≠ j + 1) (h3 : a + 1 ≠ j) :
    finalMat e t a j = 0 := by
  by_cases ha0 : a = 0
  · subst ha0
    exact finalMat_row0 e hZ t j (by omega)
  · by_cases haZ' : a = e.Z
    · subst haZ'
      exact finalMat_rowZ e hZ t j (by omega) (by omega)
    · exact finalMat_int_other e t a j (by omega) (by omega) (by omega) (by omega) (by omega)

lemma sum_support_two (n x y : ℕ) (f : ℕ → ℚ) (hxy : x ≠ y) (hx : x < n) (hy : y < n)
    (h0 : ∀ a, a < n → a ≠ x → a ≠ y → f a = 0) :
    ∑ a in Finset.range n, f a = f x + f y := by
  have hsub : ({x, y} : Finset ℕ) ⊆ Finset.range n := by
    intro a ha
    simp only [Finset.mem_insert, Finset.mem_singleton] at ha
    rcases ha with rfl | rfl
    · exact Finset.mem_range.mpr hx
    · exact Finset.mem_range.mpr hy
  have hzero : ∀ a ∈ Finset.range n, a ∉ ({x, y} : Finset ℕ) → f a = 0 := by
    intro a ha hna
    simp only [Finset.mem_insert, Finset.mem_singleton, not_or] at hna
    exact h0 a (Finset.mem_range.mp ha) hna.1 hna.2
  rw [← Finset.sum_subset hsub hzero, Finset.sum_pair hxy]

lemma sum_support_three (n x y z : ℕ) (f : ℕ → ℚ)
    (hxy : x ≠ y) (hxz : x ≠ z) (hyz : y ≠ z)
    (hx : x < n) (hy : y < n) (hz : z < n)
    (h0 : ∀ a, a < n → a ≠ x → a ≠ y → a ≠ z → f a = 0) :
    ∑ a in Finset.range n, f a = f x + (f y + f z) := by
  have hsub : ({x, y, z} : Finset ℕ) ⊆ Finset.range n := by
    intro a ha
    simp only [Finset.mem_insert, Finset.mem_singleton] at ha
    rcases ha with rfl | rfl | rfl
    · exact Finset.mem_range.mpr hx
    · exact Finset.mem_range.mpr hy
    · exact Finset.mem_range.mpr hz
  have hzero : ∀ a ∈ Finset.range n, a ∉ ({x, y, z} : Finset ℕ) → f a = 0 := by
    intro a ha hna
    simp only [Finset.mem_insert, Finset.mem_singleton, not_or] at hna
    exact h0 a (Finset.mem_range.mp ha) hna.1 hna.2.1 hna.2.2
  have hx_notmem : x ∉ ({y, z} : Finset ℕ) := by
    simp only [Finset.mem_insert, Finset.mem_singleton, not_or]
    exact ⟨hxy, hxz⟩
  rw [← Finset.sum_subset hsub hzero, Finset.sum_insert hx_notmem, Finset.sum_pair hyz]

/-- Interior columns of the builder output sum to zero for arbitrary
rate-provider outputs. -/
lemma finalMat_colsum_interior (e : Element) (hZ : 1 ≤ e.Z) (t j : ℕ)
    (h1 : 0 < j) (h2 : j < e.Z) :
    ∑ a in Finset.range (e.Z + 1), finalMat e t a j = 0 := by
  rw [sum_support_three (e.Z + 1) (j - 1) j (j + 1) _ (by omega) (by omega) (by omega)
    (by omega) (by omega) (by omega)
    (fun a ha hx hy hz => finalMat_col_other e hZ t a j (by omega) (by omega)
      (by omega) (by omega) (by omega))]
  rw [finalMat_sub_diag e hZ t j (by omega) (by omega),
    finalMat_int_diag e t j (by omega) (by omega),
    finalMat_super_diag e hZ t j (by omega)]
  ring

/-- Column `0` of the builder output sums to the negated recombination rate
of the neutral stage. -/
lemma finalMat_colsum_zero (e : Element) (hZ : 1 ≤ e.Z) (t : ℕ) :
    ∑ a in Finset.range (e.Z + 1), finalMat e t a 0 = -(e.recRate 0 t) := by
  rw [sum_support_two (e.Z + 1) 0 1 _ (by omega) (by omega) (by omega)
    (fun a ha hx hy => finalMat_col_other e hZ t a 0 (by omega) (by omega)
      (by omega) (by omega) (by omega))]
  rw [finalMat_00 e hZ t]
  have h10 : finalMat e t 1 0 = e.ionRate 0 t := by
    simpa using finalMat_super_diag e hZ t 0 (by omega)
  rw [h10]
  ring

/-- Column `Z` of the builder output sums to the negated ionization rate of
the fully stripped stage. -/
lemma finalMat_colsum_last (e : Element) (hZ : 1 ≤ e.Z) (t : ℕ) :
    ∑ a in Finset.range (e.Z + 1), finalMat e t a e.Z = -(e.ionRate e.Z t) := by
  rw [sum_support_two (e.Z + 1) (e.Z - 1) e.Z _ (by omega) (by omega) (by omega)
    (fun a ha hx hy => finalMat_col_other e hZ t a e.Z (by omega) (by omega)
      (by omega) (by omega) (by omega))]
  rw [finalMat_sub_diag e hZ t e.Z (by omega) (by omega), finalMat_ZZ e hZ t]
  ring

/-- C1: for every element with atomic number `Z ≥ 1` (every real element)
and temperature grid of length `T`, the builder returns a
`T × (Z+1) × (Z+1)` array with, at each temperature sample: the interior
tridiagonal entries `M[t,i,i] = -(ionization_rate_i + recombination_rate_i)`,
`M[t,i,i-1] = ionization_rate_(i-1)`, `M[t,i,i+1] = recombination_rate_(i+1)`
for `0 < i < Z`; boundary row `0` with diagonal
`-(ionization_rate_0 + recombination_rate_0)` and off-diagonal
`recombination_rate_1`; boundary row `Z` with diagonal
`-(ionization_rate_Z + recombination_rate_Z)` and off-diagonal
`ionization_rate_(Z-1)`; and zero everywhere else. -/
theorem rateMatrix_tridiagonal_C1 (e : Element) (hZ : 1 ≤ e.Z) :
    ∃ M : RateMatrix, e.rateMatrix = Except.ok M ∧ M.T = e.T ∧ M.n = e.Z + 1 ∧
      (∀ t i, 0 < i → i < e.Z →
        M.entry t i i = -(e.ionRate i t + e.recRate i t) ∧
        M.entry t i (i - 1) = e.ionRate (i - 1) t ∧
        M.entry t i (i + 1) = e.recRate (i + 1) t) ∧
      (∀ t, M.entry t 0 0 = -(e.ionRate 0 t + e.recRate 0 t) ∧
        M.entry t 0 1 = e.recRate 1 t) ∧
      (∀ t, M.entry t e.Z e.Z = -(e.ionRate e.Z t + e.recRate e.Z t) ∧
        M.entry t e.Z (e.Z - 1) = e.ionRate (e.Z - 1) t) ∧
      (∀ t a b, a ≤ e.Z → b ≤ e.Z →
        ¬(a = 0 ∧ (b = 0 ∨ b = 1)) →
        ¬(a = e.Z ∧ (b = e.Z ∨ b + 1 = e.Z)) →
        ¬(0 < a ∧ a < e.Z ∧ (b = a ∨ b + 1 = a ∨ b = a + 1)) →
        M.entry t a b = 0) := by
  refine ⟨⟨e.T, e.Z + 1, finalMat e⟩, rateMatrix_eq e hZ, rfl, rfl, ?_, ?_, ?_, ?_⟩
  · intro t i h1 h2
    exact ⟨finalMat_int_diag e t i h1 h2, finalMat_int_sub e t i h1 h2,
      finalMat_int_super e t i h1 h2⟩
  · intro t
    exact ⟨finalMat_00 e hZ t, finalMat_01 e hZ t⟩
  · intro t
    exact ⟨finalMat_ZZ e hZ t, finalMat_ZZsub e hZ t⟩
  · intro t a b ha hb hn0 hnZ hni
    by_cases ha0 : a = 0
    · subst ha0
      exact finalMat_row0 e hZ t b (by omega)
    · by_cases haZ : a = e.Z
      · subst haZ
        exact finalMat_rowZ e hZ t b (by omega) (by omega)
      · exact finalMat_int_other e t a b (by omega) (by omega) (by omega) (by omega)
          (by omega)

/-- Witness for C1 at the concrete three-stage element `elemC`. -/
theorem rateMatrix_tridiagonal_C1_witness :
    ∃ M : RateMatrix, elemC.rateMatrix = Except.ok M ∧ M.T = elemC.T ∧ M.n = elemC.Z + 1 ∧
      (∀ t i, 0 < i → i < elemC.Z →
        M.entry t i i = -(elemC.ionRate i t + elemC.recRate i t) ∧
        M.entry t i (i - 1) = elemC.ionRate (i - 1) t ∧
        M.entry t i (i + 1) = elemC.recRate (i + 1) t) ∧
      (∀ t, M.entry t 0 0 = -(elemC.ionRate 0 t + elemC.recRate 0 t) ∧
        M.entry t 0 1 = elemC.recRate 1 t) ∧
      (∀ t, M.entry t elemC.Z elemC.Z = -(elemC.ionRate elemC.Z t + elemC.recRate elemC.Z t) ∧
        M.entry t elemC.Z (elemC.Z - 1) = elemC.ionRate (elemC.Z - 1) t) ∧
      (∀ t a b, a ≤ elemC.Z → b ≤ elemC.Z →
        ¬(a = 0 ∧ (b = 0 ∨ b = 1)) →
        ¬(a = elemC.Z ∧ (b = elemC.Z ∨ b + 1 = elemC.Z)) →
        ¬(0 < a ∧ a < elemC.Z ∧ (b = a ∨ b + 1 = a ∨ b = a + 1)) →
        M.entry t a b = 0) :=
  rateMatrix_tridiagonal_C1 elemC (by decide)

/-- C3 counterexample: the builder output for the two-stage element `elemA`
(all rates equal to `1`) has column `0` of its only temperature slice
summing to `-1`, which is not (approximately) zero, refuting the claim that
every column of every builder output sums to zero for arbitrary
rate-provider outputs. -/
theorem rateMatrix_colsum_counterexample_C3 :
    elemA.rateMatrix = Except.ok ⟨1, 2, finalMat elemA⟩ ∧
    (∑ a in Finset.range 2, finalMat elemA 0 a 0) = -1 ∧ (-1 : ℚ) ≠ 0 := by
  refine ⟨rateMatrix_eq elemA (by decide), ?_, by norm_num⟩
  have h10 : finalMat elemA 0 1 0 = elemA.ionRate 0 0 := by
    simpa using finalMat_super_diag elemA (by decide) 0 0 (by decide)
  rw [Finset.sum_range_succ, Finset.sum_range_succ, Finset.sum_range_zero,
    finalMat_00 elemA (by decide) 0, h10]
  norm_num [elemA]

/-- C3 (amended): in every builder output, each interior column
(`0 < j < Z`) of each temperature slice sums to exactly zero for arbitrary
rate-provider outputs, while column `0` sums to the negated recombination
rate of the neutral stage and column `Z` sums to the negated ionization
rate of the fully stripped stage — so all columns sum to zero exactly when
those two boundary rates vanish (the physical boundary conditions), not
unconditionally. -/
theorem rateMatrix_colsum_amended_C3 (e : Element) (hZ : 1 ≤ e.Z) :
    ∃ M : RateMatrix, e.rateMatrix = Except.ok M ∧
      (∀ t j, 0 < j → j < e.Z →
        ∑ a in Finset.range (e.Z + 1), M.entry t a j = 0) ∧
      (∀ t, ∑ a in Finset.range (e.Z + 1), M.entry t a 0 = -(e.recRate 0 t)) ∧
      (∀ t, ∑ a in Finset.range (e.Z + 1), M.entry t a e.Z = -(e.ionRate e.Z t)) :=
  ⟨⟨e.T, e.Z + 1, finalMat e⟩, rateMatrix_eq e hZ,
    fun t j h1 h2 => finalMat_colsum_interior e hZ t j h1 h2,
    fun t => finalMat_colsum_zero e hZ t,
    fun t => finalMat_colsum_last e hZ t⟩

/-- Witness for the amended C3 at the concrete three-stage element. -/
theorem rateMatrix_colsum_amended_C3_witness :
    ∃ M : RateMatrix, elemC.rateMatrix = Except.ok M ∧
      (∀ t j, 0 < j → j < elemC.Z →
        ∑ a in Finset.range (elemC.Z + 1), M.entry t a j = 0) ∧
      (∀ t, ∑ a in Finset.range (elemC.Z + 1), M.entry t a 0 = -(elemC.recRate 0 t)) ∧
      (∀ t, ∑ a in Finset.range (elemC.Z + 1), M.entry t a elemC.Z = -(elemC.ionRate elemC.Z t)) :=
  rateMatrix_colsum_amended_C3 elemC (by decide)

/-- C4 counterexample: for the `Z = 0` element the allocated matrix is
`1 × 1` (so not `2 × 2`), and the builder raises `IndexError` (the lookup
`self[1]` on an ion sequence of length one) instead of returning. -/
theorem rateMatrix_z0_counterexample_C4 :
    elemZ0.Z = 0 ∧ elemZ0.Z + 1 = 1 ∧
    elemZ0.rateMatrix = Except.error (PyErr.indexError "index out of range") :=
  ⟨rfl, rfl, rfl⟩

/-- C4 (amended): for `Z = 1` (the two-stage hydrogen case) the builder
returns a `2 × 2` matrix per temperature sample without raising; the
interior loop over `range(1, Z)` runs zero times (leaving the zero array
untouched) and the four boundary-row assignments alone populate all four
entries. -/
theorem rateMatrix_two_stage_amended_C4 (e : Element) (hZ : e.Z = 1) :
    rateLoop e zeroMat (e.Z - 1) = Except.ok zeroMat ∧
    (∃ M : RateMatrix, e.rateMatrix = Except.ok M ∧ M.n = 2 ∧
      ∀ t, M.entry t 0 0 = -(e.ionRate 0 t + e.recRate 0 t) ∧
        M.entry t 0 1 = e.recRate 1 t ∧
        M.entry t 1 1 = -(e.ionRate 1 t + e.recRate 1 t) ∧
        M.entry t 1 0 = e.ionRate 0 t) := by
  have hZ1 : 1 ≤ e.Z := by omega
  constructor
  · rw [hZ]
    rfl
  · refine ⟨⟨e.T, e.Z + 1, finalMat e⟩, rateMatrix_eq e hZ1, ?_, ?_⟩
    · show e.Z + 1 = 2
      omega
    · intro t
      have h11 : finalMat e t 1 1 = -(e.ionRate 1 t + e.recRate 1 t) := by
        have h := finalMat_ZZ e hZ1 t
        rw [hZ] at h
        exact h
      have h10 : finalMat e t 1 0 = e.ionRate 0 t := by
        have h := finalMat_ZZsub e hZ1 t
        rw [hZ] at h
        norm_num at h
        exact h
      exact ⟨finalMat_00 e hZ1 t, finalMat_01 e hZ1 t, h11, h10⟩

lemma pyIndex_last (n : ℕ) (h : 1 ≤ n) : pyIndex n (-1) = Except.ok (n - 1) := by
  rw [pyIndex_neg n (-1) (by omega) (by omega)]
  congr 1
  omega

/-- The no-argument solver call, fully computed for `Z ≥ 1`. -/
lemma equilibriumIonization_eq (e : Element) (svd : Mat3 → Mat3) (hZ : 1 ≤ e.Z) :
    e.equilibriumIonization svd none = Except.ok
      ⟨e.T, e.Z + 1, fun t j => |svd (finalMat e) t e.Z j| /
        ∑ k in Finset.range (e.Z + 1), |svd (finalMat e) t e.Z k|⟩ := by
  simp only [Element.equilibriumIonization, rateMatrix_eq e hZ, ok_bind]
  rw [pyIndex_last (e.Z + 1) (by omega), ok_bind]
  have hsub : e.Z + 1 - 1 = e.Z := by omega
  rw [hsub, pure_ok]

/-- Witness for the amended C4 at the concrete two-stage element `elemA`. -/
theorem rateMatrix_two_stage_amended_C4_witness :
    rateLoop elemA zeroMat (elemA.Z - 1) = Except.ok zeroMat ∧
    (∃ M : RateMatrix, elemA.rateMatrix = Except.ok M ∧ M.n = 2 ∧
      ∀ t, M.entry t 0 0 = -(elemA.ionRate 0 t + elemA.recRate 0 t) ∧
        M.entry t 0 1 = elemA.recRate 1 t ∧
        M.entry t 1 1 = -(elemA.ionRate 1 t + elemA.recRate 1 t) ∧
        M.entry t 1 0 = elemA.ionRate 0 t) :=
  rateMatrix_two_stage_amended_C4 elemA rfl

/-- C2: for every element (`Z ≥ 1`, as for every real atomic number) and
any decomposition whose selected right-singular vectors (the last row of
each temperature slice of `V`) are nonzero — true of every genuine SVD,
whose `V` factor has orthonormal rows — `equilibrium_ionization` returns a
`T × (Z+1)` array in which every entry is nonnegative and every row sums
to `1` exactly (the embedding computes in exact rational arithmetic, so
the floating-point tolerance of the claim is met exactly), each row being
the absolute value of that singular vector divided by its sum. -/
theorem equilibriumIonization_rows_C2 (e : Element) (svd : Mat3 → Mat3) (hZ : 1 ≤ e.Z)
    (hsvd : ∀ A t, ∃ j, j ≤ e.Z ∧ svd A t e.Z j ≠ 0) :
    ∃ F : IonFracArr, e.equilibriumIonization svd none = Except.ok F ∧
      F.T = e.T ∧ F.n = e.Z + 1 ∧
      ∀ t, (∀ j, 0 ≤ F.entry t j) ∧
        ∑ j in Finset.range (e.Z + 1), F.entry t j = 1 := by
  refine ⟨_, equilibriumIonization_eq e svd hZ, rfl, rfl, fun t => ?_⟩
  obtain ⟨j0, hj0, hne⟩ := hsvd (finalMat e) t
  have htot : 0 < ∑ k in Finset.range (e.Z + 1), |svd (finalMat e) t e.Z k| := by
    have hmem : j0 ∈ Finset.range (e.Z + 1) := Finset.mem_range.mpr (by omega)
    calc (0 : ℚ) < |svd (finalMat e) t e.Z j0| := abs_pos.mpr hne
      _ ≤ ∑ k in Finset.range (e.Z + 1), |svd (finalMat e) t e.Z k| :=
        Finset.single_le_sum (f := fun k => |svd (finalMat e) t e.Z k|)
          (fun k _ => abs_nonneg _) hmem
  constructor
  · intro j
    exact div_nonneg (abs_nonneg _) htot.le
  · rw [← Finset.sum_div]
    exact div_self htot.ne'

/-- Witness for C2 at the concrete two-stage element with the constant
stand-in decomposition. -/
theorem equilibriumIonization_rows_C2_witness :
    (1 ≤ elemA.Z) ∧
    (∃ F : IonFracArr, elemA.equilibriumIonization constSvd none = Except.ok F ∧
      F.T = elemA.T ∧ F.n = elemA.Z + 1 ∧
      ∀ t, (∀ j, 0 ≤ F.entry t j) ∧
        ∑ j in Finset.range (elemA.Z + 1), F.entry t j = 1) :=
  ⟨by decide, equilibriumIonization_rows_C2 elemA constSvd (by decide)
    (fun A t => ⟨0, by omega, by simp [constSvd]⟩)⟩

/-- C7: supplying the builder's own rate matrix as the precomputed
`rate_matrix` argument yields exactly the result of the no-argument call:
the override path skips the builder but computes the same fractions. -/
theorem equilibriumIonization_override_C7 (e : Element) (svd : Mat3 → Mat3)
    (M : RateMatrix) (h : e.rateMatrix = Except.ok M) :
    e.equilibriumIonization svd (some M) = e.equilibriumIonization svd none := by
  simp only [Element.equilibriumIonization, h]

/-- Witness for C7: the concrete two-stage element with its own computed
rate matrix supplied as the override. -/
theorem equilibriumIonization_override_C7_witness :
    elemA.rateMatrix = Except.ok elemAMat ∧
    elemA.equilibriumIonization constSvd (some elemAMat) =
      elemA.equilibriumIonization constSvd none :=
  ⟨rfl, equilibriumIonization_override_C7 elemA constSvd elemAMat rfl⟩

/-- C8: two successive no-argument `equilibrium_ionization()` calls on the
same element return identical results and leave the element state
unchanged: the computation is a pure function of the immutable element
state, with no caching and no mutation between calls. -/
theorem equilibriumIonization_idempotent_C8 (e : Element) (svd : Mat3 → Mat3) :
    ((e.equilibriumCall svd).2.equilibriumCall svd).1 = (e.equilibriumCall svd).1 ∧
    ((e.equilibriumCall svd).2.equilibriumCall svd).2 = e :=
  ⟨rfl, rfl⟩

lemma str_data_append (s t : String) : (s ++ t).data = s.data ++ t.data := by
  cases s
  cases t
  rfl

lemma splitWsAux_nonspace (w : List Char) (hw : ∀ c ∈ w, pyIsSpace c = false) :
    ∀ rest cur, splitWsAux (w ++ rest) cur = splitWsAux rest (w.reverse ++ cur) := by
  induction w with
  | nil =>
    intro rest cur
    simp
  | cons c w ih =>
    intro rest cur
    have hc : pyIsSpace c = false := hw c (List.mem_cons_self c w)
    have hw2 : ∀ d ∈ w, pyIsSpace d = false := fun d hd => hw d (List.mem_cons_of_mem c hd)
    rw [List.cons_append]
    show (if pyIsSpace c then _ else splitWsAux (w ++ rest) (c :: cur)) = _
    rw [hc]
    simp only [Bool.false_eq_true, if_false]
    rw [ih hw2 rest (c :: cur), List.reverse_cons, List.append_assoc]
    rfl

lemma splitWsAux_single (w : List Char) (hw : ∀ c ∈ w, pyIsSpace c = false)
    (hw0 : w ≠ []) : splitWsAux w [] = [w] := by
  have h := splitWsAux_nonspace w hw [] []
  rw [List.append_nil] at h
  rw [h]
  show (if w.reverse ++ [] = [] then _ else [(w.reverse ++ ([] : List Char)).reverse]) = [w]
  rw [List.append_nil]
  rw [if_neg (by simp [hw0])]
  rw [List.reverse_reverse]

lemma pySplit_pair (w d : List Char) (hw : ∀ c ∈ w, pyIsSpace c = false) (hw0 : w ≠ [])
    (hd : ∀ c ∈ d, pyIsSpace c = false) (hd0 : d ≠ []) :
    splitWsAux (w ++ ' ' :: d) [] = [w, d] := by
  rw [splitWsAux_nonspace w hw (' ' :: d) []]
  show (if pyIsSpace ' ' then
      (if w.reverse ++ [] = [] then splitWsAux d []
       else (w.reverse ++ ([] : List Char)).reverse :: splitWsAux d [])
    else _) = [w, d]
  rw [if_pos (show pyIsSpace ' ' = true from rfl), List.append_nil]
  rw [if_neg (by simp [hw0]), List.reverse_reverse, splitWsAux_single d hd hd0]

lemma char_ofNat_toNat_small (n : ℕ) (h : n < 256) : (Char.ofNat n).toNat = n := by
  have hv : n.isValidChar := Or.inl (by omega)
  rw [Char.ofNat, dif_pos hv]
  simp [Char.ofNatAux, Char.toNat, UInt32.toNat]

lemma digitsVal_append (l : List Char) (c : Char) :
    digitsVal (l ++ [c]) = 10 * digitsVal l + (c.toNat - 48) := by
  unfold digitsVal
  rw [List.foldl_append]
  rfl

lemma natDigits_digits (n : ℕ) : ∀ c ∈ natDigits n, 48 ≤ c.toNat ∧ c.toNat ≤ 57 := by
  induction n using Nat.strong_induction_on with
  | _ n ih =>
    rw [natDigits]
    split_ifs with h
    · intro c hc
      simp only [List.mem_singleton] at hc
      subst hc
      rw [char_ofNat_toNat_small (48 + n) (by omega)]
      omega
    · intro c hc
      rw [List.mem_append] at hc
      rcases hc with hc | hc
      · exact ih (n / 10) (Nat.div_lt_self (by omega) (by omega)) c hc
      · simp only [List.mem_singleton] at hc
        subst hc
        have hm : n % 10 < 10 := Nat.mod_lt _ (by omega)
        rw [char_ofNat_toNat_small (48 + n % 10) (by omega)]
        omega

lemma natDigits_ne_nil (n : ℕ) : natDigits n ≠ [] := by
  rw [natDigits]
  split_ifs <;> simp

lemma digitsVal_natDigits (n : ℕ) : digitsVal (natDigits n) = n := by
  induction n using Nat.strong_induction_on with
  | _ n ih =>
    rw [natDigits]
    split_ifs with h
    · show digitsVal [Char.ofNat (48 + n)] = n
      unfold digitsVal
      show 10 * 0 + ((Char.ofNat (48 + n)).toNat - 48) = n
      rw [char_ofNat_toNat_small (48 + n) (by omega)]
      omega
    · rw [digitsVal_append, ih (n / 10) (Nat.div_lt_self (by omega) (by omega)),
        char_ofNat_toNat_small (48 + n % 10) (by omega)]
      omega

lemma natDigits_no_space (n : ℕ) : ∀ c ∈ natDigits n, pyIsSpace c = false := by
  intro c hc
  obtain ⟨h1, h2⟩ := natDigits_digits n c hc
  have hs1 : c ≠ ' ' := by intro he; subst he; exact absurd h1 (by decide)
  have hs2 : c ≠ '\t' := by intro he; subst he; exact absurd h1 (by decide)
  have hs3 : c ≠ '\n' := by intro he; subst he; exact absurd h1 (by decide)
  have hs4 : c ≠ '\r' := by intro he; subst he; exact absurd h1 (by decide)
  simp [pyIsSpace, hs1, hs2, hs3, hs4]

lemma natDigits_no_plus (n : ℕ) : '+' ∉ natDigits n := by
  intro hc
  obtain ⟨h1, h2⟩ := natDigits_digits n '+' hc
  exact absurd h1 (by decide)

lemma pyInt_natDigits (n : ℕ) : pyInt (natDigits n) = Except.ok (n : ℤ) := by
  unfold pyInt
  have hhead : (natDigits n).head? ≠ some '-' := by
    obtain ⟨c, cs, hcons⟩ := List.exists_cons_of_ne_nil (natDigits_ne_nil n)
    rw [hcons, List.head?_cons]
    intro he
    have hc : c = '-' := by injection he
    have hcmem : c ∈ natDigits n := by rw [hcons]; exact List.mem_cons_self c cs
    obtain ⟨h1, h2⟩ := natDigits_digits n c hcmem
    subst hc
    exact absurd h1 (by decide)
  rw [if_neg hhead, if_pos ⟨natDigits_ne_nil n, natDigits_digits n⟩, digitsVal_natDigits]

lemma dropWhile_no_sat (p : Char → Bool) (l : List Char) (h : ∀ c ∈ l, p c = false) :
    l.dropWhile p = l := by
  cases l with
  | nil => rfl
  | cons c cs =>
    rw [List.dropWhile_cons, h c (List.mem_cons_self c cs)]
    simp

lemma stripChar_append_plus (l : List Char) (hne : l ≠ [])
    (h : ∀ c ∈ l, (c == '+') = false) :
    stripChar '+' (l ++ ['+']) = l := by
  unfold stripChar
  obtain ⟨c, cs, rfl⟩ := List.exists_cons_of_ne_nil hne
  rw [List.cons_append, List.dropWhile_cons, h c (List.mem_cons_self c cs)]
  simp only [Bool.false_eq_true, if_false]
  rw [List.reverse_cons, List.reverse_append]
  show ((('+' :: cs.reverse) ++ [c]).dropWhile (· == '+')).reverse = c :: cs
  rw [List.cons_append, List.dropWhile_cons]
  rw [show (('+' : Char) == '+') = true from rfl]
  simp only [if_true]
  rw [dropWhile_no_sat _ (cs.reverse ++ [c]) ?hrest]
  case hrest =>
    intro d hd
    rw [List.mem_append] at hd
    rcases hd with hd | hd
    · exact h d (List.mem_cons_of_mem c (List.mem_reverse.mp hd))
    · simp only [List.mem_singleton] at hd
      subst hd
      exact h d (List.mem_cons_self d cs)
  rw [List.reverse_append, List.reverse_reverse]
  rfl

lemma getitem_stage (e : Element) (s : String) (w : List Char) (i : ℕ)
    (hdata : s.data = w ++ ' ' :: natDigits (i + 1))
    (hw : ∀ c ∈ w, pyIsSpace c = false) (hw0 : w ≠ [])
    (hi : i < e.Z + 1) :
    e.getitem (Key.str s) = Except.ok i := by
  have hsplit : pySplit s = [w, natDigits (i + 1)] := by
    unfold pySplit
    rw [hdata]
    exact pySplit_pair w (natDigits (i + 1)) hw hw0
      (natDigits_no_space (i + 1)) (natDigits_ne_nil (i + 1))
  simp only [Element.getitem, hsplit]
  rw [if_neg (natDigits_no_plus (i + 1)), pyInt_natDigits (i + 1)]
  show e.ionIdx (((i + 1 : ℕ) : ℤ) - 1) = Except.ok i
  have hc : ((i + 1 : ℕ) : ℤ) - 1 = ((i : ℕ) : ℤ) := by push_cast; ring
  rw [hc]
  exact ionIdx_nat e i hi

lemma getitem_charge (e : Element) (s : String) (w : List Char) (i : ℕ)
    (hdata : s.data = w ++ ' ' :: (natDigits i ++ ['+']))
    (hw : ∀ c ∈ w, pyIsSpace c = false) (hw0 : w ≠ [])
    (hi : i < e.Z + 1) :
    e.getitem (Key.str s) = Except.ok i := by
  have hdsp : ∀ c ∈ natDigits i ++ ['+'], pyIsSpace c = false := by
    intro c hc
    rw [List.mem_append] at hc
    rcases hc with hc | hc
    · exact natDigits_no_space i c hc
    · simp only [List.mem_singleton] at hc
      subst hc
      decide
  have hsplit : pySplit s = [w, natDigits i ++ ['+']] := by
    unfold pySplit
    rw [hdata]
    exact pySplit_pair w _ hw hw0 hdsp (by simp)
  simp only [Element.getitem, hsplit]
  rw [if_pos (List.mem_append_right _ (List.mem_singleton.mpr rfl))]
  have hplus : ∀ c ∈ natDigits i, (c == '+') = false := by
    intro c hc
    obtain ⟨h1, h2⟩ := natDigits_digits i c hc
    rw [beq_eq_false_iff_ne]
    intro he
    subst he
    exact absurd h1 (by decide)
  rw [stripChar_append_plus (natDigits i) (natDigits_ne_nil i) hplus, pyInt_natDigits i]
  show e.ionIdx ((i : ℕ) : ℤ) = Except.ok i
  exact ionIdx_nat e i hi

lemma getitem_nosep (e : Element) (s : String)
    (h : ∀ c ∈ s.data, pyIsSpace c = false) :
    e.getitem (Key.str s) =
      Except.error (PyErr.valueError "not enough values to unpack (expected 2)") := by
  by_cases h0 : s.data = []
  · have hsplit : pySplit s = [] := by
      unfold pySplit
      rw [h0]
      rfl
    simp only [Element.getitem, hsplit]
  · have hsplit : pySplit s = [s.data] := by
      unfold pySplit
      exact splitWsAux_single s.data h h0
    simp only [Element.getitem, hsplit]

/-- C5: integer indexing and string indexing resolve to the same sequence
position: for every stage index `i ≤ Z` and for any element whose symbol
is nonempty and free of whitespace, `element[i]`,
`element["<symbol> <i+1>"]` (1-based stage form) and
`element["<symbol> <i>+"]` (0-based charge form) all return the ion at
position `i`. -/
theorem getitem_consistent_C5 (e : Element) (i : ℕ) (hi : i ≤ e.Z)
    (hs0 : e.symbol.data ≠ []) (hs : ∀ c ∈ e.symbol.data, pyIsSpace c = false) :
    e.getitem (Key.int (i : ℤ)) = Except.ok i ∧
    e.getitem (Key.str (e.symbol ++ " " ++ natToStr (i + 1))) = Except.ok i ∧
    e.getitem (Key.str (e.symbol ++ " " ++ natToStr i ++ "+")) = Except.ok i := by
  refine ⟨?_, ?_, ?_⟩
  · show e.ionIdx ((i : ℕ) : ℤ) = Except.ok i
    exact ionIdx_nat e i (by omega)
  · refine getitem_stage e _ e.symbol.data i ?_ hs hs0 (by omega)
    rw [str_data_append, str_data_append, List.append_assoc]
    rfl
  · refine getitem_charge e _ e.symbol.data i ?_ hs hs0 (by omega)
    rw [str_data_append, str_data_append, str_data_append, List.append_assoc,
      List.append_assoc]
    rfl

/-- Witness for C5 at the iron element and the neutral stage: `elemFe[0]`,
`elemFe["Fe 1"]` and `elemFe["Fe 0+"]` agree. -/
theorem getitem_consistent_C5_witness :
    elemFe.getitem (Key.int ((0 : ℕ) : ℤ)) = Except.ok 0 ∧
    elemFe.getitem (Key.str (elemFe.symbol ++ " " ++ natToStr (0 + 1))) = Except.ok 0 ∧
    elemFe.getitem (Key.str (elemFe.symbol ++ " " ++ natToStr 0 ++ "+")) = Except.ok 0 :=
  getitem_consistent_C5 elemFe 0 (by omega) (by decide) (by decide)

/-- C6: a string key without the element/stage separator (no whitespace at
all, e.g. `"Fe"`) makes indexed access raise a format error (`ValueError`
from the failed two-token unpacking) — it neither returns a value nor
raises an unrelated error kind. -/
theorem getitem_malformed_C6 (e : Element) (s : String)
    (h : ∀ c ∈ s.data, pyIsSpace c = false) :
    ∃ msg, e.getitem (Key.str s) = Except.error (PyErr.valueError msg) :=
  ⟨_, getitem_nosep e s h⟩

/-- Witness for C6: the bare key `"Fe"` on the iron element. -/
theorem getitem_malformed_C6_witness :
    ∃ msg, elemFe.getitem (Key.str "Fe") = Except.error (PyErr.valueError msg) :=
  getitem_malformed_C6 elemFe "Fe" (by decide)

/-- C10: the element token of a string key is never validated against the
element's own symbol: for every whitespace-free nonempty token `w`
whatsoever and every stage index `i ≤ Z`, the keys `"<w> <i+1>"` and
`"<w> <i>+"` resolve purely by the numeric token to the ion at position
`i`, exactly as integer indexing does — e.g. `"H 1"` on an iron element
returns the neutral iron stage instead of signalling an error. -/
theorem getitem_ignores_symbol_C10 (e : Element) (w : String) (i : ℕ) (hi : i ≤ e.Z)
    (hw0 : w.data ≠ []) (hw : ∀ c ∈ w.data, pyIsSpace c = false) :
    e.getitem (Key.str (w ++ " " ++ natToStr (i + 1))) = Except.ok i ∧
    e.getitem (Key.str (w ++ " " ++ natToStr i ++ "+")) = Except.ok i ∧
    e.getitem (Key.str (w ++ " " ++ natToStr (i + 1))) = e.getitem (Key.int (i : ℤ)) := by
  have h1 : e.getitem (Key.str (w ++ " " ++ natToStr (i + 1))) = Except.ok i := by
    refine getitem_stage e _ w.data i ?_ hw hw0 (by omega)
    rw [str_data_append, str_data_append, List.append_assoc]
    rfl
  have h2 : e.getitem (Key.str (w ++ " " ++ natToStr i ++ "+")) = Except.ok i := by
    refine getitem_charge e _ w.data i ?_ hw hw0 (by omega)
    rw [str_data_append, str_data_append, str_data_append, List.append_assoc,
      List.append_assoc]
    rfl
  have h3 : e.getitem (Key.int ((i : ℕ) : ℤ)) = Except.ok i := ionIdx_nat e i (by omega)
  exact ⟨h1, h2, h1.trans h3.symm⟩

/-- Witness for C10: the key `"H 1"` (and `"H 0+"`) on the iron element
returns the neutral iron stage. -/
theorem getitem_ignores_symbol_C10_witness :
    elemFe.getitem (Key.str ("H" ++ " " ++ natToStr (0 + 1))) = Except.ok 0 ∧
    elemFe.getitem (Key.str ("H" ++ " " ++ natToStr 0 ++ "+")) = Except.ok 0 ∧
    elemFe.getitem (Key.str ("H" ++ " " ++ natToStr (0 + 1))) =
      elemFe.getitem (Key.int ((0 : ℕ) : ℤ)) :=
  getitem_ignores_symbol_C10 elemFe "H" 0 (by omega) (by decide) (by decide)

lemma asciiUpper_toNat (c : Char) (h : 97 ≤ c.toNat ∧ c.toNat ≤ 122) :
    (asciiUpper c).toNat = c.toNat - 32 := by
  unfold asciiUpper
  rw [if_pos h, char_ofNat_toNat_small _ (by omega)]

lemma asciiUpper_not_lower (c : Char) (h : ¬(97 ≤ c.toNat ∧ c.toNat ≤ 122)) :
    asciiUpper c = c := by
  unfold asciiUpper
  rw [if_neg h]

lemma asciiUpper_idem (c : Char) : asciiUpper (asciiUpper c) = asciiUpper c := by
  by_cases h : 97 ≤ c.toNat ∧ c.toNat ≤ 122
  · refine asciiUpper_not_lower _ ?_
    rw [asciiUpper_toNat c h]
    omega
  · rw [asciiUpper_not_lower c h]
    exact asciiUpper_not_lower c h

lemma asciiLower_toNat (c : Char) (h : 65 ≤ c.toNat ∧ c.toNat ≤ 90) :
    (asciiLower c).toNat = c.toNat + 32 := by
  unfold asciiLower
  rw [if_pos h, char_ofNat_toNat_small _ (by omega)]

lemma asciiLower_not_upper (c : Char) (h : ¬(65 ≤ c.toNat ∧ c.toNat ≤ 90)) :
    asciiLower c = c := by
  unfold asciiLower
  rw [if_neg h]

lemma asciiLower_idem (c : Char) : asciiLower (asciiLower c) = asciiLower c := by
  by_cases h : 65 ≤ c.toNat ∧ c.toNat ≤ 90
  · refine asciiLower_not_upper _ ?_
    rw [asciiLower_toNat c h]
    omega
  · rw [asciiLower_not_upper c h]
    exact asciiLower_not_upper c h

lemma pyCapitalize_idem (s : String) :
    pyCapitalize (pyCapitalize s) = pyCapitalize s := by
  cases s with
  | mk data =>
    cases data with
    | nil => rfl
    | cons c rest =>
      show (⟨asciiUpper (asciiUpper c) ::
        ((rest.map asciiLower).map asciiLower)⟩ : String) =
        ⟨asciiUpper c :: rest.map asciiLower⟩
      rw [asciiUpper_idem, List.map_map]
      have hmap : asciiLower ∘ asciiLower = asciiLower := funext asciiLower_idem
      rw [hmap]

/-- C9: construction signals a lookup error and produces no (partial)
provider collection exactly when the resolver cannot map the (normalized)
identifier to an atomic number; for resolvable identifiers exactly `Z + 1`
providers are built, in order from stage `1` (neutral) to stage `Z + 1`
(fully stripped); and string identifiers are capitalization-normalized
before resolution, so an identifier and its capitalization construct
identically. -/
theorem elementInit_spec_C9 (resolve : ElementId → Option ℕ) (eid : ElementId) :
    (resolve (normalizeId eid) = none →
      elementInit resolve eid =
        Except.error (PyErr.invalidElement "could not resolve element identifier")) ∧
    (∀ Z, resolve (normalizeId eid) = some Z →
      elementInit resolve eid = Except.ok (mkIonList Z) ∧
      (mkIonList Z).length = Z + 1 ∧
      ∀ k, k < Z + 1 → (mkIonList Z).get? k = some (Z, k + 1)) ∧
    (∀ s, elementInit resolve (ElementId.name s) =
      elementInit resolve (ElementId.name (pyCapitalize s))) := by
  refine ⟨?_, ?_, ?_⟩
  · intro h
    unfold elementInit
    rw [h]
  · intro Z h
    refine ⟨by unfold elementInit; rw [h], by simp [mkIonList], ?_⟩
    intro k hk
    simp [mkIonList, List.getElem?_map, List.getElem?_range hk]
  · intro s
    show (match resolve (ElementId.name (pyCapitalize s)) with
      | none => Except.error (PyErr.invalidElement "could not resolve element identifier")
      | some Z => Except.ok (mkIonList Z)) =
      (match resolve (ElementId.name (pyCapitalize (pyCapitalize s))) with
      | none => Except.error (PyErr.invalidElement "could not resolve element identifier")
      | some Z => Except.ok (mkIonList Z))
    rw [pyCapitalize_idem]

/-- Witness for C9: with a resolver that knows iron only, `"fe"` is
normalized to `"Fe"` and constructs the 27 providers `(26, 1) ... (26, 27)`
in stage order, while an unknown name signals the lookup error. -/
theorem elementInit_spec_C9_witness :
    elementInit resolveFe (ElementId.name "fe") = Except.ok (mkIonList 26) ∧
    (mkIonList 26).length = 27 ∧
    (mkIonList 26).get? 0 = some (26, 1) ∧
    (mkIonList 26).get? 26 = some (26, 27) ∧
    elementInit resolveFe (ElementId.name "Xy") =
      Except.error (PyErr.invalidElement "could not resolve element identifier") := by
  have h := (elementInit_spec_C9 resolveFe (ElementId.name "fe")).2.1 26 (by decide)
  exact ⟨h.1, h.2.1, h.2.2 0 (by omega), h.2.2 26 (by omega),
    (elementInit_spec_C9 resolveFe (ElementId.name "Xy")).1 (by decide)⟩

end Fiasco
